import Mathlib

/-!
Verification development for the saneyaml serialization layer
(`src/attributecode/saneyaml.py`): a wrapper around a YAML engine that

* loads every scalar (null, boolean, int, float, timestamp, str tags) as its
  literal source text (`string_loader`, registered for each scalar tag);
* loads mappings into an order-preserving dictionary (`ordered_loader`);
* dumps mappings in stored order (`ordered_dumper`), booleans as `yes`/`no`
  (`boolean_dumper`), and strings, ints and floats through `string_dumper`,
  which selects literal-block style for multiline text and folded style for
  long text containing spaces. The source's `null_dumper` is registered on
  the parent dumper class only after the subclass forked its representer
  table, so nulls actually dump through the engine's inherited representer
  as the token `null`; dates, datetimes, sets and tuples likewise dump
  through inherited engine representers.

Text is modelled as `List Char` (Python `str` is a sequence of characters).
The engine-side pieces (implicit tag resolver, text composer/emitter) are not
part of this repository; they are modelled from the specification and are
marked `Modelled from the spec:` in their doc comments.
-/

deriving instance DecidableEq for Except

namespace Saneyaml

/-- Text is modelled as a list of characters. -/
abbrev PyStr := List Char

/-- ASCII decimal digit test, used by the modelled implicit resolver. -/
def isDigitChar (c : Char) : Bool := '0' ≤ c && c ≤ '9'

/-- The single-quote character (used by the modelled emitter for quoting). -/
def squote : Char := Char.ofNat 39

/-- Python `str.splitlines(False)` restricted to the newline character:
the list of lines of `v`, where a trailing newline does not produce a final
empty line and the empty string has no lines. -/
def splitlinesGo (acc : List Char) : List Char → List PyStr
  | [] => if acc = [] then [] else [acc.reverse]
  | c :: rest =>
    if c = '\n' then acc.reverse :: splitlinesGo [] rest
    else splitlinesGo (c :: acc) rest

/-- Python `value.splitlines(False)` (newline-only model). -/
def splitlines (v : PyStr) : List PyStr :=
  match v with
  | [] => []
  | _ => splitlinesGo [] v

/-- YAML type tags relevant to this layer. -/
inductive Tag where
  | str | null | boolean | timestamp | float | int | seq | map | set
  deriving DecidableEq, Repr

/-- Lexical forms resolving to the null tag (`""`, `~`, `null` in the usual
casings), per the modelled implicit resolver. -/
def isNullForm (v : PyStr) : Bool :=
  v = [] || v = "~".data || v = "null".data || v = "Null".data || v = "NULL".data

/-- Lexical forms resolving to the boolean tag (`yes/no/true/false/on/off`
in the usual casings), per the modelled implicit resolver. -/
def isBoolForm (v : PyStr) : Bool :=
  ["yes", "Yes", "YES", "no", "No", "NO", "true", "True", "TRUE",
   "false", "False", "FALSE", "on", "On", "OFF", "off", "Off",
   "ON"].any (fun s => v = s.data)

/-- Decimal integer lexical form: an optional sign followed by one or more
digits. -/
def isIntForm (v : PyStr) : Bool :=
  match v with
  | [] => false
  | c :: rest =>
    if c = '-' || c = '+' then rest ≠ [] && rest.all isDigitChar
    else v.all isDigitChar

/-- Decimal float lexical form: an optional sign, then digits with exactly
one decimal point and at least one digit overall. -/
def isFloatForm (v : PyStr) : Bool :=
  let body := match v with
    | c :: rest => if c = '-' || c = '+' then rest else v
    | [] => []
  match body.splitOn '.' with
  | [intPart, fracPart] =>
    (intPart ≠ [] || fracPart ≠ []) &&
      intPart.all isDigitChar && fracPart.all isDigitChar
  | _ => false

/-- Date lexical form `yyyy-mm-dd`, per the modelled implicit resolver. -/
def isTimestampForm (v : PyStr) : Bool :=
  match v with
  | [y1, y2, y3, y4, d1, m1, m2, d2, a1, a2] =>
    [y1, y2, y3, y4].all isDigitChar && d1 = '-' && [m1, m2].all isDigitChar &&
      d2 = '-' && [a1, a2].all isDigitChar
  | _ => false

/-- Modelled from the spec: the underlying engine's implicit tag resolution
for plain scalars (the spec's Scalar Resolver contract names the tags null,
boolean, integer, float, timestamp, string). The YAML engine that performs
this resolution is not part of the repository. -/
def resolveTag (v : PyStr) : Tag :=
  if isNullForm v then .null
  else if isBoolForm v then .boolean
  else if isIntForm v then .int
  else if isFloatForm v then .float
  else if isTimestampForm v then .timestamp
  else .str

/-- The scalar tags for which `SaneLoader.add_constructor` registers
`string_loader` in the source: str, null, boolean, timestamp, float, int. -/
def isRegisteredScalarTag : Tag → Bool
  | .str | .null | .boolean | .timestamp | .float | .int => true
  | _ => false

mutual
/-- YAML node as built by the engine's composer and consumed by its
serializer: a scalar with tag, text and requested style, or a sequence or
mapping of nodes. -/
inductive Node where
  | scalar (tag : Tag) (value : PyStr) (style : Option Char)
  | sequence (tag : Tag) (items : NodeList)
  | mapping (tag : Tag) (pairs : NodePairs)
  deriving DecidableEq, Repr

/-- List of nodes (sequence items). -/
inductive NodeList where
  | nil
  | cons (n : Node) (ns : NodeList)
  deriving DecidableEq, Repr

/-- List of key/value node pairs of a mapping node, in source order. -/
inductive NodePairs where
  | nil
  | cons (k v : Node) (ps : NodePairs)
  deriving DecidableEq, Repr
end

mutual
/-- Python value at the load/dump boundary: `None`, `bool`, `int`, `float`
(carried by its `repr` string, the only use the code makes of it), `str`,
`list`, ordered `dict`; then the kinds outside the seven for which the
dumper still has representers inherited from the engine: `tuple` and `set`
(by their element lists — a Python set's elements are hashable and its
iteration order is as carried), and `date` and `datetime` (by the ISO text
the engine's representer formats them to). `other` is an object of any
remaining type, for which no registered representer exists. -/
inductive PyValue where
  | none
  | bool (b : Bool)
  | int (n : Int)
  | float (r : PyStr)
  | str (s : PyStr)
  | list (xs : PyList)
  | dict (ps : PyPairs)
  | tuple (xs : PyList)
  | set (xs : PyList)
  | date (d : PyStr)
  | datetime (d : PyStr)
  | other
  deriving DecidableEq, Repr

/-- List of Python values. -/
inductive PyList where
  | nil
  | cons (x : PyValue) (xs : PyList)
  deriving DecidableEq, Repr

/-- Ordered dictionary: key/value pairs in insertion order. -/
inductive PyPairs where
  | nil
  | cons (k : PyStr) (v : PyValue) (ps : PyPairs)
  deriving DecidableEq, Repr
end

instance : Inhabited Node := ⟨.scalar .str [] Option.none⟩

instance : Inhabited NodeList := ⟨.nil⟩

instance : Inhabited NodePairs := ⟨.nil⟩

instance : Inhabited PyValue := ⟨.none⟩

instance : Inhabited PyList := ⟨.nil⟩

instance : Inhabited PyPairs := ⟨.nil⟩

/-- Keys of an ordered dictionary, in order. -/
def PyPairs.keys : PyPairs → List PyStr
  | .nil => []
  | .cons k _ ps => k :: ps.keys

/-- Concatenation of two ordered dictionaries' pair lists. -/
def PyPairs.append : PyPairs → PyPairs → PyPairs
  | .nil, q => q
  | .cons k v ps, q => .cons k v (ps.append q)

/-- Membership of a string in a list of strings. -/
def strIn (k : PyStr) : List PyStr → Bool
  | [] => false
  | k1 :: rest => k1 = k || strIn k rest

/-- Each key occurs at most once (the `dict` invariant of Python). -/
def PyPairs.nodupKeys : PyPairs → Bool
  | .nil => true
  | .cons k _ ps => !(strIn k ps.keys) && ps.nodupKeys

/-- Python `OrderedDict.__setitem__`: updating an existing key keeps its
position and replaces its value; a new key is appended at the end. -/
def odInsert (m : PyPairs) (k : PyStr) (v : PyValue) : PyPairs :=
  match m with
  | .nil => .cons k v .nil
  | .cons k1 v1 rest =>
    if k1 = k then .cons k1 v rest
    else .cons k1 v1 (odInsert rest k v)

/-- The style-selection logic of `string_dumper` in the source: literal
block style (`|`) when the value contains an embedded newline, folded style
(`>`) when some line is longer than 40 characters and the value contains a
space, plain style (`None`) otherwise. -/
def string_dumper_style (value : PyStr) : Option Char :=
  let long_lines :=
    (splitlines value).any (fun line => line.length > 40) && value.contains ' '
  let multilines := value.contains '\n'
  if multilines then some '|'
  else if long_lines then some '>'
  else none

/-- The node `string_dumper` builds for a string value: str tag, the text
itself, and the selected style. -/
def stringNode (v : PyStr) : Node :=
  .scalar .str v (string_dumper_style v)

/-- Python `repr` of an `int`. -/
def intRepr (n : Int) : PyStr := (toString n).data

mutual
/-- The representer stage of `dump`: dispatches on the Python value's type
through the dumper's representer table (`boolean_dumper`, `string_dumper`
with str/int/float tags, `ordered_dumper`, and the representers inherited
from the engine for lists, tuples, sets, dates and datetimes); a value of a
type with no representer raises a representer error. `None` dumps through
the engine's inherited representer as the `null`-tagged token `null`: the
source's `null_dumper` is registered on the parent dumper class (line 160)
after this dumper forked its own representer table (line 151), so that
registration never reaches this dumper. -/
def represent : PyValue → Except String Node
  | .none => .ok (.scalar .null "null".data none)
  | .bool b => .ok (.scalar .boolean (if b then "yes".data else "no".data) none)
  | .int n => .ok (.scalar .int (intRepr n) (string_dumper_style (intRepr n)))
  | .float r => .ok (.scalar .float r (string_dumper_style r))
  | .str s => .ok (stringNode s)
  | .list xs =>
    match representList xs with
    | .ok ns => .ok (.sequence .seq ns)
    | .error e => .error e
  | .dict ps =>
    match representPairs ps with
    | .ok qs => .ok (.mapping .map qs)
    | .error e => .error e
  | .tuple xs =>
    match representList xs with
    | .ok ns => .ok (.sequence .seq ns)
    | .error e => .error e
  | .set xs =>
    match representSet xs with
    | .ok qs => .ok (.mapping .set qs)
    | .error e => .error e
  | .date d => .ok (.scalar .timestamp d none)
  | .datetime d => .ok (.scalar .timestamp d none)
  | .other => .error "cannot represent an object"

/-- Represent the items of a list (or tuple), in order. -/
def representList : PyList → Except String NodeList
  | .nil => .ok .nil
  | .cons x xs =>
    match represent x with
    | .ok n =>
      match representList xs with
      | .ok ns => .ok (.cons n ns)
      | .error e => .error e
    | .error e => .error e

/-- `ordered_dumper`: represent the pairs of an ordered dictionary in stored
order, keys through the string representer. -/
def representPairs : PyPairs → Except String NodePairs
  | .nil => .ok .nil
  | .cons k v ps =>
    match represent v with
    | .ok n =>
      match representPairs ps with
      | .ok qs => .ok (.cons (stringNode k) n qs)
      | .error e => .error e
    | .error e => .error e

/-- The engine's inherited set representer: a set becomes a set-tagged
mapping whose keys are the elements and whose values are all `None`. -/
def representSet : PyList → Except String NodePairs
  | .nil => .ok .nil
  | .cons x xs =>
    match represent x with
    | .ok n =>
      match representSet xs with
      | .ok qs => .ok (.cons n (.scalar .null "null".data none) qs)
      | .error e => .error e
    | .error e => .error e
end

mutual
/-- The constructor stage of `load`: every scalar tag registered in the
source (str, null, boolean, timestamp, float, int) is constructed by
`string_loader`, which returns the scalar's literal text; sequences construct
their items in order; mappings construct through `ordered_loader`. A scalar
whose tag has no registered constructor fails. -/
def construct : Node → Except String PyValue
  | .scalar tag v _ =>
    if isRegisteredScalarTag tag then .ok (.str v)
    else .error "could not determine a constructor for the tag"
  | .sequence _ xs =>
    match constructList xs with
    | .ok l => .ok (.list l)
    | .error e => .error e
  | .mapping _ ps =>
    match constructPairsGo .nil ps with
    | .ok m => .ok (.dict m)
    | .error e => .error e

/-- Construct the items of a sequence node, in order. -/
def constructList : NodeList → Except String PyList
  | .nil => .ok .nil
  | .cons n ns =>
    match construct n with
    | .ok x =>
      match constructList ns with
      | .ok l => .ok (.cons x l)
      | .error e => .error e
    | .error e => .error e

/-- `ordered_loader`: walk the mapping node's key/value pairs in source
order, construct each key and value, and insert into the ordered dictionary
built so far (`omap[key] = value`). A key that does not construct to a
string is not hashable in the intended sense and fails. -/
def constructPairsGo (m : PyPairs) : NodePairs → Except String PyPairs
  | .nil => .ok m
  | .cons k v rest =>
    match construct k with
    | .ok (.str ks) =>
      match construct v with
      | .ok vv => constructPairsGo (odInsert m ks vv) rest
      | .error e => .error e
    | .ok _ => .error "unhashable key"
    | .error e => .error e
end

mutual
/-- Modelled from the spec: the effect of emitting a node and composing the
emitted text again, which is the engine (PyYAML serializer/emitter and
scanner/parser/composer) part of a render-then-parse round trip and is not
part of the repository. Structure and scalar text are preserved (the engine
quotes or block-escapes any scalar whose plain form would be ambiguous, so
scalar content survives the trip); the freshly composed scalar carries the
tag the implicit resolver assigns to its text, and no requested style. -/
def reloadNode : Node → Node
  | .scalar _ v _ => .scalar (resolveTag v) v none
  | .sequence _ xs => .sequence .seq (reloadList xs)
  | .mapping _ ps => .mapping .map (reloadPairs ps)

/-- Reload each node of a sequence. -/
def reloadList : NodeList → NodeList
  | .nil => .nil
  | .cons n ns => .cons (reloadNode n) (reloadList ns)

/-- Reload each key/value pair of a mapping. -/
def reloadPairs : NodePairs → NodePairs
  | .nil => .nil
  | .cons k v ps => .cons (reloadNode k) (reloadNode v) (reloadPairs ps)
end

/-- Characters that make a plain scalar ambiguous with format syntax when
they start it, per the modelled emitter. -/
def plainUnsafeStart : List Char :=
  ['-', '?', ':', ',', '[', ']', '{', '}', '#', '&', '*', '!', '|', '>',
   '%', '@', '"', ' ', '\t', squote]

/-- Whether the text contains the two-character sequence colon-space, which
ends a plain scalar in the format's syntax. -/
def colonSpace : PyStr → Bool
  | [] => false
  | [_] => false
  | a :: b :: rest => (a = ':' && b = ' ') || colonSpace (b :: rest)

/-- Modelled from the spec: whether the emitter may write a scalar text
plain (rule 3 of the Scalar Style Selector defers to the engine's escaping
when the plain form would be ambiguous with format syntax). -/
def plainSafe (v : PyStr) : Bool :=
  match v with
  | [] => false
  | c :: _ =>
    !(plainUnsafeStart.contains c) && !(v.contains '\n') &&
      !(v.contains squote) && !(colonSpace v) && v.getLast? ≠ some ' '

/-- Modelled from the spec: the emitter writes a scalar plain only when its
text is plain-safe and its tag agrees with what the implicit resolver would
re-read from that text (otherwise the reloaded document would change type,
so the engine quotes instead). -/
def plainOK (tag : Tag) (v : PyStr) : Bool :=
  plainSafe v && (resolveTag v = tag)

/-- Single-quote escaping: each quote is doubled. -/
def sqEscape : PyStr → PyStr
  | [] => []
  | c :: rest =>
    if c = squote then c :: c :: sqEscape rest else c :: sqEscape rest

/-- Modelled from the spec: the token the emitter writes for a scalar in
plain or single-quoted form. -/
def scalarToken (tag : Tag) (v : PyStr) : PyStr :=
  if plainOK tag v then v else squote :: (sqEscape v ++ [squote])

/-- Indentation: `n` spaces. -/
def spaces (n : Nat) : PyStr := List.replicate n ' '

/-- Lines of a block scalar body, each indented and newline-terminated. -/
def blockBody (ind : Nat) : List PyStr → PyStr
  | [] => []
  | l :: ls => spaces ind ++ l ++ '\n' :: blockBody ind ls

/-- Modelled from the spec: the text the emitter writes for a scalar that
begins a line at indentation `ind` (block header plus indented body for the
literal and folded styles, a single token line otherwise). -/
def scalarLines (ind : Nat) (tag : Tag) (v : PyStr) (sty : Option Char) : PyStr :=
  match sty with
  | some c => c :: '-' :: '\n' :: blockBody (ind + 4) (splitlines v)
  | none => scalarToken tag v ++ ['\n']

/-- The token the emitter writes for a mapping key (complex keys are outside
the supported profile and get a placeholder). -/
def keyToken : Node → PyStr
  | .scalar tag v _ => scalarToken tag v
  | _ => ['?']

mutual
/-- Modelled from the spec: the emitter, fixed to block style, 4-space
indentation, no document markers; every mapping key on its own line in
stored order, every sequence item on its own line. `emitAt ind n` is the
text of node `n` emitted starting at indentation `ind`. -/
def emitAt (ind : Nat) : Node → PyStr
  | .scalar tag v sty => spaces ind ++ scalarLines ind tag v sty
  | .sequence _ .nil => spaces ind ++ ('[' :: ']' :: ['\n'])
  | .sequence _ (.cons n ns) => emitItems ind (.cons n ns)
  | .mapping _ .nil => spaces ind ++ ('{' :: '}' :: ['\n'])
  | .mapping _ (.cons k v ps) => emitPairs ind (.cons k v ps)

/-- Emit the items of a block sequence, one `- ` line each. -/
def emitItems (ind : Nat) : NodeList → PyStr
  | .nil => []
  | .cons n ns =>
    let head := spaces ind ++ ('-' :: ' ' :: [])
    let this :=
      match n with
      | .scalar tag v sty => head ++ scalarLines (ind + 4) tag v sty
      | .sequence _ .nil => head ++ ('[' :: ']' :: ['\n'])
      | .mapping _ .nil => head ++ ('{' :: '}' :: ['\n'])
      | .sequence t (.cons m ms) =>
        head ++ '\n' :: emitAt (ind + 4) (.sequence t (.cons m ms))
      | .mapping t (.cons k v ps) =>
        head ++ '\n' :: emitAt (ind + 4) (.mapping t (.cons k v ps))
    this ++ emitItems ind ns

/-- Emit the pairs of a block mapping, one `key:` line each, in stored
order. -/
def emitPairs (ind : Nat) : NodePairs → PyStr
  | .nil => []
  | .cons k v ps =>
    let head := spaces ind ++ keyToken k ++ (':' :: ' ' :: [])
    let this :=
      match v with
      | .scalar tag w sty => head ++ scalarLines (ind + 4) tag w sty
      | .sequence _ .nil => head ++ ('[' :: ']' :: ['\n'])
      | .mapping _ .nil => head ++ ('{' :: '}' :: ['\n'])
      | .sequence t (.cons m ms) =>
        head ++ '\n' :: emitAt (ind + 4) (.sequence t (.cons m ms))
      | .mapping t (.cons k1 v1 qs) =>
        head ++ '\n' :: emitAt (ind + 4) (.mapping t (.cons k1 v1 qs))
    this ++ emitPairs ind ps
end

/-- Modelled from the spec: the document text the emitter writes for a
serialized node. -/
def emitDoc (n : Node) : PyStr := emitAt 0 n

/-- Strip one trailing newline and succeed when a single line remains. -/
def oneLine (s : PyStr) : Option PyStr :=
  let body := if s.getLast? = some '\n' then s.dropLast else s
  if body.contains '\n' then none else some body

/-- Whether a line is a single-quoted scalar token. -/
def isQuotedLine (s : PyStr) : Bool :=
  match s with
  | c :: _ :: _ => c = squote && s.getLast? = some squote &&
      !((s.drop 1).dropLast.contains squote)
  | _ => false

/-- Modelled from the spec: the engine's composer, for the fragment of the
format this development needs concretely — the empty stream composes to no
node, and a single-line document composes to one scalar node: a single-quoted
token with the str tag, or a plain token carrying the tag the implicit
resolver assigns to its text. Other shapes are outside the modelled
fragment. -/
def compose (s : PyStr) : Except String (Option Node) :=
  match s with
  | [] => .ok none
  | _ =>
    match oneLine s with
    | some line =>
      if isQuotedLine line then
        .ok (some (.scalar .str (line.drop 1).dropLast none))
      else if plainSafe line then
        .ok (some (.scalar (resolveTag line) line none))
      else .error "outside the modelled fragment"
    | none => .error "outside the modelled fragment"

/-- The `load` facade: compose the text, then construct the resulting node;
an empty stream yields `None`. -/
def load (s : PyStr) : Except String PyValue :=
  match compose s with
  | .ok Option.none => .ok .none
  | .ok (some n) => construct n
  | .error e => .error e

/-- The `dump` facade: represent the value, then emit the node. -/
def dump (v : PyValue) : Except String PyStr :=
  match represent v with
  | .ok n => .ok (emitDoc n)
  | .error e => .error e

/-- Parse-after-render at the node boundary: represent the value, send the
node through the engine round trip (`reloadNode`), and construct the
reloaded node. This is `load (dump v)` with the engine's text stage modelled
by `reloadNode`. -/
def parseRender (v : PyValue) : Except String PyValue :=
  match represent v with
  | .ok n => construct (reloadNode n)
  | .error e => .error e

/-- Render-after-parse-after-render: `dump` of whatever `parseRender`
produced. -/
def renderCycle (v : PyValue) : Except String PyStr :=
  match parseRender v with
  | .ok u => dump u
  | .error e => .error e

mutual
/-- A value built only from the kinds that `load` itself produces: strings,
lists, and ordered dictionaries with distinct keys. -/
def goodTree : PyValue → Bool
  | .str _ => true
  | .list xs => goodList xs
  | .dict ps => ps.nodupKeys && goodPairs ps
  | _ => false

/-- All members of a list are good trees. -/
def goodList : PyList → Bool
  | .nil => true
  | .cons x xs => goodTree x && goodList xs

/-- All values of an ordered dictionary are good trees. -/
def goodPairs : PyPairs → Bool
  | .nil => true
  | .cons _ v ps => goodTree v && goodPairs ps
end

mutual
/-- A value every node of which has a registered representer: anything but
`other`, recursing through lists, tuples, sets and dictionaries. -/
def representableTree : PyValue → Bool
  | .other => false
  | .list xs => representableList xs
  | .dict ps => representablePairs ps
  | .tuple xs => representableList xs
  | .set xs => representableList xs
  | _ => true

/-- All members of a list have representers. -/
def representableList : PyList → Bool
  | .nil => true
  | .cons x xs => representableTree x && representableList xs

/-- All values of an ordered dictionary have representers. -/
def representablePairs : PyPairs → Bool
  | .nil => true
  | .cons _ v ps => representableTree v && representablePairs ps
end

mutual
/-- A value built only from the seven supported kinds of the spec's data
model: null, boolean, integer, float, string, sequence, mapping. -/
def sevenKindsTree : PyValue → Bool
  | .list xs => sevenKindsList xs
  | .dict ps => sevenKindsPairs ps
  | .tuple _ => false
  | .set _ => false
  | .date _ => false
  | .datetime _ => false
  | .other => false
  | _ => true

/-- All members of a list are of the seven kinds. -/
def sevenKindsList : PyList → Bool
  | .nil => true
  | .cons x xs => sevenKindsTree x && sevenKindsList xs

/-- All values of an ordered dictionary are of the seven kinds. -/
def sevenKindsPairs : PyPairs → Bool
  | .nil => true
  | .cons _ v ps => sevenKindsTree v && sevenKindsPairs ps
end

/-- Whether an `Except` result is a success. -/
def exOk {α : Type} : Except String α → Bool
  | .ok _ => true
  | .error _ => false

/-- Build the node pairs of a mapping node from string keys and value nodes,
each key a plain scalar carrying its resolver tag (as the composer builds
them). -/
def mkPairs : List (PyStr × Node) → NodePairs
  | [] => .nil
  | (k, v) :: rest => .cons (.scalar (resolveTag k) k none) v (mkPairs rest)

/-- The scalar text of a node (used to read mapping keys off represented
nodes). -/
def scalarVal : Node → PyStr
  | .scalar _ v _ => v
  | _ => []

/-- The key texts of a mapping node's pairs, in stored order. -/
def nodeKeys : NodePairs → List PyStr
  | .nil => []
  | .cons k _ ps => scalarVal k :: nodeKeys ps

/-- Whether a value is a string node. -/
def isStrValue : PyValue → Bool
  | .str _ => true
  | _ => false

/-- Whether a value is a sequence node. -/
def isListValue : PyValue → Bool
  | .list _ => true
  | _ => false

/-- Whether a value is a mapping node. -/
def isDictValue : PyValue → Bool
  | .dict _ => true
  | _ => false

/-- The spec's phrase: the string contains an embedded line break. -/
def specLineBreak (v : PyStr) : Prop := '\n' ∈ v

/-- The spec's phrase: some line of the string is longer than 40
characters. -/
def specLongLine (v : PyStr) : Prop := ∃ l ∈ splitlines v, 40 < l.length

/-- The spec's phrase: the string contains at least one space character. -/
def specSpace (v : PyStr) : Prop := ' ' ∈ v

/-- Value bound to a key in an ordered dictionary, if any. -/
def PyPairs.lookup : PyPairs → PyStr → Option PyValue
  | .nil, _ => Option.none
  | .cons k1 v1 ps, k => if k1 = k then some v1 else ps.lookup k

/-- The value node of the last occurrence of key `k` among the source pairs
of a mapping, if `k` occurs at all. -/
def lastKeyVal : List (PyStr × Node) → PyStr → Option Node
  | [], _ => Option.none
  | (k1, v1) :: rest, k =>
    match lastKeyVal rest k with
    | some v => some v
    | Option.none => if k1 = k then some v1 else Option.none

theorem keys_append : ∀ p q : PyPairs, (p.append q).keys = p.keys ++ q.keys
  | .nil, _ => rfl
  | .cons _ _ ps, q => by
    simp [PyPairs.append, PyPairs.keys, keys_append ps q]

theorem append_assoc : ∀ p q r : PyPairs,
    (p.append q).append r = p.append (q.append r)
  | .nil, _, _ => rfl
  | .cons _ _ ps, q, r => by
    simp [PyPairs.append, append_assoc ps q r]

theorem strIn_append (k : PyStr) : ∀ a b : List PyStr,
    strIn k (a ++ b) = (strIn k a || strIn k b)
  | [], _ => rfl
  | _ :: rest, b => by
    simp [strIn, strIn_append k rest b, Bool.or_assoc]

theorem odInsert_eq_append : ∀ (m : PyPairs) (k : PyStr) (v : PyValue),
    strIn k m.keys = false → odInsert m k v = m.append (.cons k v .nil)
  | .nil, _, _, _ => rfl
  | .cons k1 _ rest, k, v, h => by
    simp [PyPairs.keys, strIn] at h
    simp [odInsert, PyPairs.append, h.1, odInsert_eq_append rest k v h.2]

theorem keys_odInsert : ∀ (m : PyPairs) (k : PyStr) (v : PyValue),
    (odInsert m k v).keys =
      if strIn k m.keys then m.keys else m.keys ++ [k]
  | .nil, k, v => by simp [odInsert, PyPairs.keys, strIn]
  | .cons k1 v1 rest, k, v => by
    by_cases h : k1 = k
    · simp [odInsert, PyPairs.keys, strIn, h]
    · have hne : (k1 = k) = False := by simp [h]
      simp [odInsert, PyPairs.keys, strIn, h, keys_odInsert rest k v]
      by_cases h2 : strIn k rest.keys <;> simp [h2]

theorem odInsert_nodup : ∀ (m : PyPairs) (k : PyStr) (v : PyValue),
    m.nodupKeys = true → (odInsert m k v).nodupKeys = true
  | .nil, k, v, _ => by simp [odInsert, PyPairs.nodupKeys, PyPairs.keys, strIn]
  | .cons k1 v1 rest, k, v, h => by
    simp [PyPairs.nodupKeys] at h
    by_cases he : k1 = k
    · subst he
      simp [odInsert, PyPairs.nodupKeys, h.1, h.2]
    · simp [odInsert, he, PyPairs.nodupKeys, odInsert_nodup rest k v h.2,
        keys_odInsert rest k v]
      by_cases h2 : strIn k rest.keys
      · simp [h2, h.1]
      · simp [h2, strIn_append, strIn, h.1]
        exact Ne.symm he

theorem resolve_registered (v : PyStr) :
    isRegisteredScalarTag (resolveTag v) = true := by
  unfold resolveTag
  repeat' split
  all_goals rfl

theorem construct_scalar_registered (tag : Tag) (v : PyStr) (sty : Option Char)
    (h : isRegisteredScalarTag tag = true) :
    construct (.scalar tag v sty) = .ok (.str v) := by
  simp [construct, h]

theorem construct_resolved (v : PyStr) (sty : Option Char) :
    construct (.scalar (resolveTag v) v sty) = .ok (.str v) :=
  construct_scalar_registered _ v sty (resolve_registered v)

theorem constructPairsGo_nodup : ∀ (ps : NodePairs) (m d : PyPairs),
    m.nodupKeys = true → constructPairsGo m ps = .ok d → d.nodupKeys = true
  | .nil, m, d, hm, h => by
    simp [constructPairsGo] at h
    exact h ▸ hm
  | .cons k v rest, m, d, hm, h => by
    simp only [constructPairsGo] at h
    split at h
    · split at h
      · exact constructPairsGo_nodup rest _ d (odInsert_nodup m _ _ hm) h
      · simp at h
    · simp at h
    · simp at h

theorem constructPairsGo_keys : ∀ (kvs : List (PyStr × Node)) (acc d : PyPairs),
    (∀ k ∈ kvs.map Prod.fst, strIn k acc.keys = false) →
    (kvs.map Prod.fst).Nodup →
    constructPairsGo acc (mkPairs kvs) = .ok d →
    d.keys = acc.keys ++ kvs.map Prod.fst
  | [], acc, d, _, _, h => by
    simp [mkPairs, constructPairsGo] at h
    simp [← h]
  | (k, v) :: rest, acc, d, hdisj, hnd, h => by
    simp only [mkPairs, constructPairsGo, construct_resolved] at h
    split at h
    · rename_i vv _hv
      have hk : strIn k acc.keys = false := hdisj k (by simp)
      have hnd2 : (rest.map Prod.fst).Nodup := (List.nodup_cons.mp hnd).2
      have hkmem : k ∉ rest.map Prod.fst := (List.nodup_cons.mp hnd).1
      have hdisj2 : ∀ k2 ∈ rest.map Prod.fst,
          strIn k2 (odInsert acc k vv).keys = false := by
        intro k2 hk2
        have h1 : strIn k2 acc.keys = false := hdisj k2 (by simp [hk2])
        have h2 : ¬ (k = k2) := fun he => absurd (he ▸ hk2) hkmem
        simp [keys_odInsert, hk, strIn_append, strIn, h1, h2]
      have ih := constructPairsGo_keys rest (odInsert acc k vv) d hdisj2 hnd2 h
      rw [ih]
      simp [keys_odInsert, hk]
    · simp at h

theorem lookup_odInsert_self : ∀ (m : PyPairs) (k : PyStr) (v : PyValue),
    (odInsert m k v).lookup k = some v
  | .nil, k, v => by simp [odInsert, PyPairs.lookup]
  | .cons k1 v1 rest, k, v => by
    by_cases he : k1 = k
    · simp [odInsert, he, PyPairs.lookup]
    · simp [odInsert, he, PyPairs.lookup, lookup_odInsert_self rest k v]

theorem lookup_odInsert_other : ∀ (m : PyPairs) (k : PyStr) (v : PyValue)
    (k2 : PyStr), ¬ (k = k2) → (odInsert m k v).lookup k2 = m.lookup k2
  | .nil, k, v, k2, h => by simp [odInsert, PyPairs.lookup, h]
  | .cons k1 v1 rest, k, v, k2, h => by
    by_cases he : k1 = k
    · subst he
      simp [odInsert, PyPairs.lookup, h]
    · by_cases he2 : k1 = k2
      · subst he2
        have h3 : ¬ (k1 = k) := he
        simp [odInsert, h3, PyPairs.lookup]
      · simp [odInsert, he, PyPairs.lookup, he2,
          lookup_odInsert_other rest k v k2 h]

theorem constructPairsGo_lookup :
    ∀ (kvs : List (PyStr × Node)) (acc d : PyPairs) (k : PyStr),
    constructPairsGo acc (mkPairs kvs) = .ok d →
    (match lastKeyVal kvs k with
     | some vnode => ∃ vv, construct vnode = .ok vv ∧ d.lookup k = some vv
     | Option.none => d.lookup k = acc.lookup k)
  | [], acc, d, k, h => by
    simp [mkPairs, constructPairsGo] at h
    simp [lastKeyVal, ← h]
  | (k1, v1) :: rest, acc, d, k, h => by
    simp only [mkPairs, constructPairsGo, construct_resolved] at h
    split at h
    · rename_i vv1 hv1
      have ih := constructPairsGo_lookup rest (odInsert acc k1 vv1) d k h
      simp only [lastKeyVal]
      cases hlast : lastKeyVal rest k with
      | some vnode =>
        rw [hlast] at ih
        simpa using ih
      | none =>
        rw [hlast] at ih
        simp only at ih
        by_cases he : k1 = k
        · subst he
          simp only [if_pos rfl]
          exact ⟨vv1, hv1, by rw [ih, lookup_odInsert_self]⟩
        · simp only [if_neg he]
          rw [ih, lookup_odInsert_other acc k1 vv1 k he]
    · simp at h

theorem construct_mapping_ok : ∀ (ps : NodePairs) (d : PyPairs),
    construct (.mapping .map ps) = .ok (.dict d) →
    constructPairsGo .nil ps = .ok d := by
  intro ps d h
  simp only [construct] at h
  split at h
  · rename_i m hm
    simp at h
    exact h ▸ hm
  · simp at h

theorem representPairs_keys : ∀ (p : PyPairs) (qs : NodePairs),
    representPairs p = .ok qs → nodeKeys qs = p.keys
  | .nil, qs, h => by
    simp [representPairs] at h
    simp [← h, nodeKeys, PyPairs.keys]
  | .cons k v ps, qs, h => by
    simp only [representPairs] at h
    split at h
    · split at h
      · rename_i n _ qs1 hq
        have ih := representPairs_keys ps qs1 hq
        simp at h
        simp [← h, nodeKeys, PyPairs.keys, scalarVal, stringNode, ih]
      · simp at h
    · simp at h

theorem append_nil : ∀ p : PyPairs, p.append .nil = p
  | .nil => rfl
  | .cons k v ps => by simp [PyPairs.append, append_nil ps]

theorem strIn_eq_true_iff (k : PyStr) : ∀ l, strIn k l = true ↔ k ∈ l
  | [] => by simp [strIn]
  | k1 :: rest => by
    simp only [strIn, Bool.or_eq_true, decide_eq_true_eq,
      strIn_eq_true_iff k rest, List.mem_cons]
    exact or_congr eq_comm Iff.rfl

mutual
theorem rt_tree : ∀ t, goodTree t = true →
    ∃ n, represent t = .ok n ∧ construct (reloadNode n) = .ok t
  | .str s, _ => by
    refine ⟨stringNode s, rfl, ?_⟩
    simp [stringNode, reloadNode, construct_resolved]
  | .list xs, h => by
    obtain ⟨ns, h1, h2⟩ := rt_list xs (by simpa [goodTree] using h)
    refine ⟨.sequence .seq ns, ?_, ?_⟩
    · simp [represent, h1]
    · simp [reloadNode, construct, h2]
  | .dict ps, h => by
    have hg : goodPairs ps = true := by
      simp [goodTree] at h; exact h.2
    have hn : ps.nodupKeys = true := by
      simp [goodTree] at h; exact h.1
    obtain ⟨qs, h1, h2⟩ := rt_pairs ps hg hn
    refine ⟨.mapping .map qs, ?_, ?_⟩
    · simp [represent, h1]
    · have h3 := h2 .nil (by intro k2 _; rfl)
      simp [reloadNode, construct, h3, PyPairs.append]

theorem rt_list : ∀ l, goodList l = true →
    ∃ ns, representList l = .ok ns ∧ constructList (reloadList ns) = .ok l
  | .nil, _ => ⟨.nil, rfl, rfl⟩
  | .cons x xs, h => by
    have hx : goodTree x = true := by simp [goodList] at h; exact h.1
    have hxs : goodList xs = true := by simp [goodList] at h; exact h.2
    obtain ⟨n, h1, h2⟩ := rt_tree x hx
    obtain ⟨ns, h3, h4⟩ := rt_list xs hxs
    refine ⟨.cons n ns, ?_, ?_⟩
    · simp [representList, h1, h3]
    · simp [reloadList, constructList, h2, h4]

theorem rt_pairs : ∀ p, goodPairs p = true → p.nodupKeys = true →
    ∃ qs, representPairs p = .ok qs ∧
      ∀ m, (∀ k2 ∈ p.keys, strIn k2 m.keys = false) →
        constructPairsGo m (reloadPairs qs) = .ok (m.append p)
  | .nil, _, _ => by
    refine ⟨.nil, rfl, ?_⟩
    intro m _
    simp [reloadPairs, constructPairsGo]
    exact (append_nil m).symm
  | .cons k v ps, hg, hn => by
    have hv : goodTree v = true := by simp [goodPairs] at hg; exact hg.1
    have hps : goodPairs ps = true := by simp [goodPairs] at hg; exact hg.2
    have hk : strIn k ps.keys = false := by
      simp [PyPairs.nodupKeys] at hn; exact hn.1
    have hnps : ps.nodupKeys = true := by
      simp [PyPairs.nodupKeys] at hn; exact hn.2
    obtain ⟨n, h1, h2⟩ := rt_tree v hv
    obtain ⟨qs, h3, h4⟩ := rt_pairs ps hps hnps
    refine ⟨.cons (stringNode k) n qs, ?_, ?_⟩
    · simp [representPairs, h1, h3]
    · intro m hdisj
      have hkm : strIn k m.keys = false := hdisj k (by simp [PyPairs.keys])
      have hdisj2 : ∀ k2 ∈ ps.keys, strIn k2 (odInsert m k v).keys = false := by
        intro k2 hk2
        have e1 : strIn k2 m.keys = false := hdisj k2 (by simp [PyPairs.keys, hk2])
        have e2 : ¬ (k = k2) := by
          intro he
          have hcontra : strIn k ps.keys = true := by
            rw [he]
            exact (strIn_eq_true_iff k2 ps.keys).mpr hk2
          simp [hcontra] at hk
        simp [keys_odInsert, hkm, strIn_append, strIn, e1, e2]
      have ih := h4 (odInsert m k v) hdisj2
      simp only [reloadPairs, constructPairsGo, stringNode, reloadNode,
        construct_resolved, h2, ih]
      rw [odInsert_eq_append m k v hkm, append_assoc]
      simp [PyPairs.append]
end

mutual
theorem represent_ok_tree : ∀ t, exOk (represent t) = representableTree t
  | .none => rfl
  | .bool _ => rfl
  | .int _ => rfl
  | .float _ => rfl
  | .str _ => rfl
  | .date _ => rfl
  | .datetime _ => rfl
  | .other => rfl
  | .list xs => by
    have ih := (represent_ok_list xs).symm
    cases h : representList xs <;> rw [h] at ih <;>
      simp [represent, h, exOk, representableTree, ih]
  | .dict ps => by
    have ih := (represent_ok_pairs ps).symm
    cases h : representPairs ps <;> rw [h] at ih <;>
      simp [represent, h, exOk, representableTree, ih]
  | .tuple xs => by
    have ih := (represent_ok_list xs).symm
    cases h : representList xs <;> rw [h] at ih <;>
      simp [represent, h, exOk, representableTree, ih]
  | .set xs => by
    have ih := (represent_ok_set xs).symm
    cases h : representSet xs <;> rw [h] at ih <;>
      simp [represent, h, exOk, representableTree, ih]

theorem represent_ok_list : ∀ l, exOk (representList l) = representableList l
  | .nil => rfl
  | .cons x xs => by
    have ih1 := (represent_ok_tree x).symm
    have ih2 := (represent_ok_list xs).symm
    cases h1 : represent x <;> rw [h1] at ih1 <;>
      cases h2 : representList xs <;> rw [h2] at ih2 <;>
      simp [representList, h1, h2, exOk, representableList, ih1, ih2]

theorem represent_ok_pairs : ∀ p, exOk (representPairs p) = representablePairs p
  | .nil => rfl
  | .cons k v ps => by
    have ih1 := (represent_ok_tree v).symm
    have ih2 := (represent_ok_pairs ps).symm
    cases h1 : represent v <;> rw [h1] at ih1 <;>
      cases h2 : representPairs ps <;> rw [h2] at ih2 <;>
      simp [representPairs, h1, h2, exOk, representablePairs, ih1, ih2]

theorem represent_ok_set : ∀ l, exOk (representSet l) = representableList l
  | .nil => rfl
  | .cons x xs => by
    have ih1 := (represent_ok_tree x).symm
    have ih2 := (represent_ok_set xs).symm
    cases h1 : represent x <;> rw [h1] at ih1 <;>
      cases h2 : representSet xs <;> rw [h2] at ih2 <;>
      simp [representSet, h1, h2, exOk, representableList, ih1, ih2]
end

mutual
theorem seven_representable_tree :
    ∀ t, sevenKindsTree t = true → representableTree t = true
  | .none, _ => rfl
  | .bool _, _ => rfl
  | .int _, _ => rfl
  | .float _, _ => rfl
  | .str _, _ => rfl
  | .list xs, h => by
    have ih := seven_representable_list xs (by simpa [sevenKindsTree] using h)
    simpa [representableTree] using ih
  | .dict ps, h => by
    have ih := seven_representable_pairs ps (by simpa [sevenKindsTree] using h)
    simpa [representableTree] using ih
  | .tuple _, h => nomatch h
  | .set _, h => nomatch h
  | .date _, h => nomatch h
  | .datetime _, h => nomatch h
  | .other, h => nomatch h

theorem seven_representable_list :
    ∀ l, sevenKindsList l = true → representableList l = true
  | .nil, _ => rfl
  | .cons x xs, h => by
    have hx : sevenKindsTree x = true := by
      simp [sevenKindsList] at h
      exact h.1
    have hxs : sevenKindsList xs = true := by
      simp [sevenKindsList] at h
      exact h.2
    simp [representableList, seven_representable_tree x hx,
      seven_representable_list xs hxs]

theorem seven_representable_pairs :
    ∀ p, sevenKindsPairs p = true → representablePairs p = true
  | .nil, _ => rfl
  | .cons k v ps, h => by
    have hv : sevenKindsTree v = true := by
      simp [sevenKindsPairs] at h
      exact h.1
    have hps : sevenKindsPairs ps = true := by
      simp [sevenKindsPairs] at h
      exact h.2
    simp [representablePairs, seven_representable_tree v hv,
      seven_representable_pairs ps hps]
end

/-- C1: any unquoted scalar, whatever typed tag its lexical form resolves to
(all six registered tags, covering booleans, numbers, nulls and timestamps),
is parsed to its literal source text as a string, never to a native typed
value; in particular the forms `true`, `123`, `2020-01-01`, `null`, `~` and
`3.14` each load as their own text. -/
theorem claim1_scalar_literal_text :
    (∀ (tag : Tag) (v : PyStr) (sty : Option Char),
      isRegisteredScalarTag tag = true →
      construct (.scalar tag v sty) = .ok (.str v)) ∧
    (∀ s ∈ ["true".data, "123".data, "2020-01-01".data,
            "null".data, "~".data, "3.14".data],
      load s = .ok (.str s)) := by
  refine ⟨construct_scalar_registered, ?_⟩
  intro s hs
  simp only [List.mem_cons, List.not_mem_nil, or_false] at hs
  rcases hs with rfl | rfl | rfl | rfl | rfl | rfl <;> decide

/-- Witness for C1 at the boolean lexical form `true` and the float lexical
form `3.14`. -/
theorem claim1_witness :
    construct (.scalar .boolean ("true".data) Option.none)
        = .ok (.str ("true".data)) ∧
      load ("3.14".data) = .ok (.str ("3.14".data)) :=
  ⟨claim1_scalar_literal_text.1 _ _ _ (by decide),
   claim1_scalar_literal_text.2 _ (by decide)⟩

/-- C2: a mapping with distinct keys parses to a dictionary whose keys are
in exact source order, and representing a dictionary emits its keys in
exact stored order (at every nesting level, since these functions run at
each mapping node). -/
theorem claim2_key_order :
    (∀ (kvs : List (PyStr × Node)) (d : PyPairs),
      (kvs.map Prod.fst).Nodup →
      construct (.mapping .map (mkPairs kvs)) = .ok (.dict d) →
      d.keys = kvs.map Prod.fst) ∧
    (∀ (p : PyPairs) (qs : NodePairs),
      representPairs p = .ok qs → nodeKeys qs = p.keys) := by
  refine ⟨?_, representPairs_keys⟩
  intro kvs d hnd h
  have h2 : constructPairsGo .nil (mkPairs kvs) = .ok d := by
    simp only [construct] at h
    split at h
    · rename_i m hm
      simp at h
      exact h ▸ hm
    · simp at h
  have h3 := constructPairsGo_keys kvs .nil d (fun _ _ => rfl) hnd h2
  simpa [PyPairs.keys] using h3

/-- Witness for C2 at a two-key mapping and a one-key dictionary. -/
theorem claim2_witness :
    (PyPairs.cons "a".data (.str "1".data)
        (.cons "b".data (.str "2".data) .nil)).keys
      = ["a".data, "b".data] ∧
    nodeKeys (.cons (stringNode "a".data) (stringNode "x".data) .nil)
      = (PyPairs.cons "a".data (.str "x".data) .nil).keys :=
  ⟨claim2_key_order.1
      [("a".data, .scalar .int "1".data Option.none),
       ("b".data, .scalar .int "2".data Option.none)] _ (by decide) (by decide),
   claim2_key_order.2 (.cons "a".data (.str "x".data) .nil) _ (by decide)⟩

/-- C3 fails as stated: the boolean `true` is composed only of the seven
supported kinds, but parse-after-render returns the string `yes`, not the
boolean. -/
theorem claim3_counterexample :
    parseRender (.bool true) = .ok (.str "yes".data) ∧
      PyValue.str "yes".data ≠ PyValue.bool true := by decide

/-- C3 amended: for every value tree composed only of string, sequence and
mapping kinds (with each mapping's keys distinct), parse-after-render is
structurally the identity. -/
theorem claim3_roundtrip_strings :
    ∀ t, goodTree t = true → parseRender t = .ok t := by
  intro t h
  obtain ⟨n, h1, h2⟩ := rt_tree t h
  simp [parseRender, h1, h2]

/-- Witness for amended C3 at a nested string/sequence/mapping tree. -/
theorem claim3_witness :
    parseRender (.dict (.cons "a".data (.str "x".data)
        (.cons "b".data (.list (.cons (.str "y".data) .nil)) .nil)))
      = .ok (.dict (.cons "a".data (.str "x".data)
        (.cons "b".data (.list (.cons (.str "y".data) .nil)) .nil))) :=
  claim3_roundtrip_strings _ (by decide)

/-- C4 fails as stated: rendering the boolean `true` yields the plain token
`yes`, but re-rendering after a parse yields the quoted token (the reloaded
value is the string `yes`, whose plain form would be read back as a boolean,
so the engine quotes it), so the second rendering differs byte-for-byte from
the first. -/
theorem claim4_counterexample :
    dump (.bool true) = .ok ("yes\n".data) ∧
    renderCycle (.bool true) = .ok (squote :: ("yes".data ++ [squote, '\n'])) ∧
    renderCycle (.bool true) ≠ dump (.bool true) := by decide

/-- C4 amended: for every value tree composed only of string, sequence and
mapping kinds (with each mapping's keys distinct),
render-after-parse-after-render equals render byte-for-byte. -/
theorem claim4_idempotent_strings :
    ∀ t, goodTree t = true → renderCycle t = dump t := by
  intro t h
  obtain ⟨n, h1, h2⟩ := rt_tree t h
  simp [renderCycle, parseRender, h1, h2]

/-- Witness for amended C4 at a two-element sequence of strings. -/
theorem claim4_witness :
    renderCycle (.list (.cons (.str "alpha".data) (.cons (.str "beta".data) .nil)))
      = dump (.list (.cons (.str "alpha".data) (.cons (.str "beta".data) .nil))) :=
  claim4_idempotent_strings _ (by decide)

/-- C5: the style selector picks exactly one style for every outgoing
string, with the spec's priority: literal-block when the string contains an
embedded line break; otherwise folded when some line is longer than 40
characters and the string contains a space; otherwise plain. -/
theorem claim5_style_selector :
    ∀ v : PyStr,
      (string_dumper_style v = some '|' ↔ specLineBreak v) ∧
      (string_dumper_style v = some '>' ↔
        ¬ specLineBreak v ∧ specLongLine v ∧ specSpace v) ∧
      (string_dumper_style v = Option.none ↔
        ¬ specLineBreak v ∧ ¬ (specLongLine v ∧ specSpace v)) := by
  intro v
  have hb : v.contains '\n' = true ↔ specLineBreak v := List.elem_iff
  have hl : ((splitlines v).any (fun line => line.length > 40) = true)
      ↔ specLongLine v := by
    simp [specLongLine, List.any_eq_true]
  have hs : (v.contains ' ' = true) ↔ specSpace v := List.elem_iff
  unfold string_dumper_style
  by_cases b1 : v.contains '\n'
  · have p1 : specLineBreak v := hb.mp b1
    simp only [b1, if_true]
    refine ⟨iff_of_true trivial p1, iff_of_false (by simp) ?_,
      iff_of_false (by simp) ?_⟩
    · exact fun h => h.1 p1
    · exact fun h => h.1 p1
  · have p1 : ¬ specLineBreak v := fun h => b1 (hb.mpr h)
    simp only [Bool.not_eq_true] at b1
    simp only [b1, Bool.false_eq_true, if_false]
    by_cases b2 : ((splitlines v).any (fun line => line.length > 40)
        && v.contains ' ') = true
    · have hsplit := Bool.and_eq_true_iff.mp b2
      have p2 : specLongLine v ∧ specSpace v := ⟨hl.mp hsplit.1, hs.mp hsplit.2⟩
      simp only [b2, if_true]
      refine ⟨iff_of_false (by simp) ?_, iff_of_true trivial ⟨p1, p2.1, p2.2⟩,
        iff_of_false (by simp) ?_⟩
      · exact fun h => p1 h
      · exact fun h => h.2 p2
    · have p2 : ¬ (specLongLine v ∧ specSpace v) := by
        intro h
        exact b2 (Bool.and_eq_true_iff.mpr ⟨hl.mpr h.1, hs.mpr h.2⟩)
      simp only [Bool.not_eq_true] at b2
      simp only [b2, Bool.false_eq_true, if_false]
      refine ⟨iff_of_false (by simp) ?_, iff_of_false (by simp) ?_,
        iff_of_true trivial ⟨p1, p2⟩⟩
      · exact fun h => p1 h
      · exact fun h => p2 h.2

/-- C6: render emits `true` as the unquoted token `yes` and `false` as `no`,
and parsing that rendered output yields the strings `yes` and `no`, not
booleans. -/
theorem claim6_boolean_one_way :
    dump (.bool true) = .ok ("yes\n".data) ∧
    dump (.bool false) = .ok ("no\n".data) ∧
    load ("yes\n".data) = .ok (.str "yes".data) ∧
    load ("no\n".data) = .ok (.str "no".data) := by decide

/-- C7: a parsed mapping never holds a key twice; whenever a key occurs in
the source pairs, the parsed mapping binds it to the constructed value of
its last occurrence; and in the concrete duplicate-key source
`a: 1, b: 5, a: 2` the key `a` appears once, bound to the string `2`. -/
theorem claim7_duplicate_keys :
    (∀ (ps : NodePairs) (d : PyPairs),
      construct (.mapping .map ps) = .ok (.dict d) → d.nodupKeys = true) ∧
    (∀ (kvs : List (PyStr × Node)) (d : PyPairs) (k : PyStr) (vnode : Node),
      construct (.mapping .map (mkPairs kvs)) = .ok (.dict d) →
      lastKeyVal kvs k = some vnode →
      ∃ vv, construct vnode = .ok vv ∧ d.lookup k = some vv) ∧
    construct (.mapping .map (mkPairs
      [("a".data, .scalar .int "1".data Option.none),
       ("b".data, .scalar .int "5".data Option.none),
       ("a".data, .scalar .int "2".data Option.none)])) =
      .ok (.dict (.cons "a".data (.str "2".data)
        (.cons "b".data (.str "5".data) .nil))) := by
  refine ⟨?_, ?_, by decide⟩
  · intro ps d h
    exact constructPairsGo_nodup ps .nil d rfl (construct_mapping_ok ps d h)
  · intro kvs d k vnode h hlast
    have h3 := constructPairsGo_lookup kvs .nil d k (construct_mapping_ok _ d h)
    rw [hlast] at h3
    exact h3

/-- Witness for C7 at the duplicate-key example: the parsed mapping has no
duplicate key and binds `a` to the value of its last occurrence. -/
theorem claim7_witness :
    (PyPairs.cons "a".data (.str "2".data)
      (.cons "b".data (.str "5".data) .nil)).nodupKeys = true ∧
    (∃ vv, construct (.scalar .int "2".data Option.none) = .ok vv ∧
      (PyPairs.cons "a".data (.str "2".data)
        (.cons "b".data (.str "5".data) .nil)).lookup "a".data = some vv) :=
  ⟨claim7_duplicate_keys.1
    (mkPairs [("a".data, .scalar .int "1".data Option.none),
              ("b".data, .scalar .int "5".data Option.none),
              ("a".data, .scalar .int "2".data Option.none)]) _ (by decide),
   claim7_duplicate_keys.2.1
    [("a".data, .scalar .int "1".data Option.none),
     ("b".data, .scalar .int "5".data Option.none),
     ("a".data, .scalar .int "2".data Option.none)] _ _ _
    (by decide) (by decide)⟩

/-- C8 fails as stated: a date value is not one of the seven supported
kinds, yet render succeeds on it — the dumper inherits the engine's
representer for dates (likewise datetimes, sets and tuples), so failure is
not "exactly when a node's kind is outside the seven". -/
theorem claim8_counterexample :
    dump (.date "2020-01-01".data) = .ok ("2020-01-01\n".data) ∧
      sevenKindsTree (.date "2020-01-01".data) = false := by decide

/-- C8 amended: render fails with a representer error exactly when the tree
contains a node of a kind with no registered representer; in particular
every tree built only from the seven supported kinds renders successfully. -/
theorem claim8_representer_error_iff :
    (∀ t : PyValue, (∃ s, dump t = .ok s) ↔ representableTree t = true) ∧
    (∀ t : PyValue, sevenKindsTree t = true → ∃ s, dump t = .ok s) := by
  have main : ∀ t : PyValue,
      (∃ s, dump t = .ok s) ↔ representableTree t = true := by
    intro t
    have h := represent_ok_tree t
    cases hr : represent t with
    | ok n =>
      rw [hr] at h
      simp only [exOk] at h
      simp [dump, hr, ← h]
    | error e =>
      rw [hr] at h
      simp only [exOk] at h
      simp [dump, hr, ← h]
  exact ⟨main, fun t ht => (main t).mpr (seven_representable_tree t ht)⟩

/-- Witness for amended C8: an integer tree is of the seven kinds and
renders successfully. -/
theorem claim8_witness : ∃ s, dump (.int 3) = .ok s :=
  claim8_representer_error_iff.2 (.int 3) (by decide)

/-- C9: render is deterministic — structurally identical trees produce
byte-identical output text. -/
theorem claim9_deterministic :
    ∀ t1 t2 : PyValue, t1 = t2 → dump t1 = dump t2 := by
  intro t1 t2 h
  rw [h]

/-- Witness for C9 at a one-string tree. -/
theorem claim9_witness :
    dump (.str "a".data) = dump (.str "a".data) :=
  claim9_deterministic _ _ rfl

/-- C10: parsing the empty string succeeds and returns the null value,
which is not a string, sequence or mapping node. -/
theorem claim10_empty_parse :
    load [] = .ok .none ∧ isStrValue .none = false ∧
      isListValue .none = false ∧ isDictValue .none = false := by decide

end Saneyaml

